import Mathlib

/-!
Verification of the per-game duration reconstruction and streaming
aggregation engine of lichess-time-spent (src/visitor.rs, src/main.rs).

The Rust source is shallowly embedded: strings are `List Char`,
`std::time::Duration` values (always whole seconds here) are `Nat`
seconds, `u64`/`usize` arithmetic that wraps in release builds carries an
explicit `% 2 ^ 64`, and code paths that `panic!` are modelled as `none`
of an `Option` result.
-/

namespace Lichess

/-- Convert a string literal to the `List Char` representation used
throughout the embedding. -/
def chars (s : String) : List Char := s.toList

/-- Embedding of Rust `str::split_once(pat)`: splits around the first
occurrence of `pat`, returning the parts before and after it, or `none`
when `pat` does not occur. -/
def split_once (pat : List Char) : List Char → Option (List Char × List Char)
  | [] => if pat.isPrefixOf ([] : List Char) then some ([], []) else none
  | c :: rest =>
    if pat.isPrefixOf (c :: rest) then some ([], (c :: rest).drop pat.length)
    else (split_once pat rest).map fun pr => (c :: pr.1, pr.2)

/-- Helper for Rust integer parsing: `u64::from_str` accepts one optional
leading `+` sign. -/
def strip_plus : List Char → List Char
  | [] => []
  | c :: rest => if c = '+' then rest else c :: rest

/-- Value of a digit string read in decimal (the value Rust's integer
parser computes). -/
def decimalVal (l : List Char) : Nat :=
  l.foldl (fun a c => a * 10 + (c.toNat - 48)) 0

/-- Embedding of Rust `str::parse::<u64>()` (also used for `usize`, which
is 64-bit on the target): optional leading `+`, then one or more ASCII
digits, value must fit in `u64`. -/
def parse_u64 (s : List Char) : Option Nat :=
  let t := strip_plus s
  if t = [] then none
  else if t.all (fun c => c.isDigit) then
    let v := decimalVal t
    if v < 2 ^ 64 then some v else none
  else none

/-- The clock-annotation marker `"[%clk "` searched for in comments. -/
def marker : List Char := chars "[%clk "

/-- Embedding of `comment_to_duration` (visitor.rs): split on the first
`"[%clk "`, take the text after it, split twice on `:` and once on `]`,
parse the three fields as `u64`, and return `h*3600 + m*60 + s` seconds.
The final `u64` arithmetic wraps in release builds, hence the `% 2 ^ 64`. -/
def comment_to_duration (comment : List Char) : Option Nat :=
  (split_once marker comment).bind fun x =>
  (split_once [':'] x.2).bind fun hm =>
  (split_once [':'] hm.2).bind fun ms =>
  (split_once [']'] ms.2).bind fun sr =>
  (parse_u64 hm.1).bind fun h =>
  (parse_u64 ms.1).bind fun m =>
  (parse_u64 sr.1).map fun s =>
  (h * 3600 + m * 60 + s) % 2 ^ 64

/-- Embedding of the `Tc` struct (visitor.rs): a time control, base and
increment in seconds, both `u64`. `Tc::default()` is `⟨0, 0⟩`. -/
structure Tc where
  base : Nat
  increment : Nat
  deriving DecidableEq, Repr

/-- Embedding of `Tc::average_time`: `(base + 40 * increment) as usize`,
with release-build `u64` wrapping made explicit. -/
def Tc.average_time (tc : Tc) : Nat := (tc.base + 40 * tc.increment) % 2 ^ 64

/-- Embedding of `tc_to_tuple` (visitor.rs): split on the first `+` and
parse both sides as `u64`. -/
def tc_to_tuple (tc : List Char) : Option Tc :=
  (split_once ['+'] tc).bind fun p =>
  (parse_u64 p.1).bind fun b =>
  (parse_u64 p.2).map fun i => Tc.mk b i

example : comment_to_duration (chars "[%clk 0:00:01]") = some 1 := by decide
example : comment_to_duration (chars " [%clk 0:03:00] ") = some 180 := by decide
example : comment_to_duration (chars "x") = none := by decide
example : tc_to_tuple (chars "60+3") = some (Tc.mk 60 3) := by decide
example : tc_to_tuple (chars "-") = none := by decide
example : tc_to_tuple (chars "0+0") = some (Tc.mk 0 0) := by decide

/-- Embedding of the `Player` struct (visitor.rs): a username and a
rating (`Rating` is a newtype over `usize`, modelled as `Nat`). -/
structure Player where
  username : List Char
  rating : Nat
  deriving DecidableEq, Repr

/-- Embedding of the `Players` struct (visitor.rs): fixed white and black
slots. -/
structure Players where
  white : Player
  black : Player
  deriving DecidableEq, Repr

/-- `Players::default()`: empty usernames, zero ratings. -/
def playersDefault : Players := ⟨⟨[], 0⟩, ⟨[], 0⟩⟩

/-- Embedding of `Players::add_name`: the key `"White"` writes the white
slot, any other key writes the black slot. -/
def Players.add_name (p : Players) (key value : List Char) : Players :=
  if key = chars "White" then { p with white := { p.white with username := value } }
  else { p with black := { p.black with username := value } }

/-- Embedding of `Players::add_rating`: `value.parse().unwrap()` panics
(`none`) on an unparseable rating; the key `"WhiteElo"` writes the white
slot, any other key the black slot. -/
def Players.add_rating (p : Players) (key value : List Char) : Option Players :=
  (parse_u64 value).map fun r =>
    if key = chars "WhiteElo" then { p with white := { p.white with rating := r } }
    else { p with black := { p.black with rating := r } }

/-- Embedding of `Players::into_iter`: always the white tuple followed by
the black tuple. -/
def Players.into_iter (p : Players) : List (List Char × Nat) :=
  [(p.white.username, p.white.rating), (p.black.username, p.black.rating)]

/-- Embedding of the per-game transient `Game` struct (visitor.rs).
`first_two_clocks` is an `ArrayVec<Duration, 2>` (list of seconds,
length ≤ 2), `last_two_comments` an `ArrayVec<String, 2>` of raw comment
strings. -/
structure Game where
  players : Players
  plies : Nat
  link : List Char
  first_two_clocks : List Nat
  last_two_comments : List (List Char)
  tc : Tc
  deriving DecidableEq, Repr

/-- `Game::default()`. -/
def gameDefault : Game := ⟨playersDefault, 0, [], [], [], ⟨0, 0⟩⟩

/-- Embedding of `Game::acc_comment`. While `first_two_clocks` is not
full the comment is parsed and the duration pushed — an unparseable
comment panics there (`none`). Then the comment string is pushed into
`last_two_comments`; when that `ArrayVec` is full, the code pops the last
element, writes it into slot 0 and pushes the new comment, realising a
two-slot sliding window. -/
def Game.acc_comment (g : Game) (comment : List Char) : Option Game :=
  (if g.first_two_clocks.length < 2 then
    (comment_to_duration comment).map fun d =>
      { g with first_two_clocks := g.first_two_clocks ++ [d] }
  else some g).bind fun g1 =>
  if g1.last_two_comments.length < 2 then
    some { g1 with last_two_comments := g1.last_two_comments ++ [comment] }
  else
    (g1.last_two_comments.getLast?).map fun b =>
      { g1 with last_two_comments := (g1.last_two_comments.dropLast.set 0 b) ++ [comment] }

/-- Feeding a sequence of comment events to one game's accumulator. -/
def feed (g : Game) : List (List Char) → Option Game
  | [] => some g
  | c :: cs => (g.acc_comment c).bind fun g1 => feed g1 cs

/-- `Duration::checked_sub` on whole seconds. -/
def checked_sub (a b : Nat) : Option Nat := if b ≤ a then some (a - b) else none

/-- Parse every comment of a list, failing (panicking caller) if any one
fails: models the `map`/`sum` over `last_two_comments` in
`Game::game_duration`. -/
def mapOpt (f : α → Option β) : List α → Option (List β)
  | [] => some []
  | a :: l => (f a).bind fun b => (mapOpt f l).map fun bs => b :: bs

/-- Embedding of `Game::game_duration`:
`(first_two_clocks.sum + plies * increment).checked_sub(last_two_comments parsed and summed)`,
paired with the players. The outer `none` models the panic on an
unparseable stored comment; `plies * increment` is `u64` arithmetic,
hence the wrap. -/
def Game.game_duration (g : Game) : Option (Players × Option Nat) :=
  (mapOpt comment_to_duration g.last_two_comments).map fun recents =>
    (g.players,
      checked_sub (g.first_two_clocks.sum + g.plies * g.tc.increment % 2 ^ 64)
        recents.sum)

/-- Embedding of `PgnVisitor::header`: dispatch on the header key.
Unparseable ratings and unparseable non-`"-"` time controls panic
(`none`). -/
def header (g : Game) (key value : List Char) : Option Game :=
  if key = chars "White" ∨ key = chars "Black" then
    some { g with players := g.players.add_name key value }
  else if key = chars "WhiteElo" ∨ key = chars "BlackElo" then
    (g.players.add_rating key value).map fun ps => { g with players := ps }
  else if key = chars "TimeControl" then
    (if value = chars "-" then some g
     else (tc_to_tuple value).map fun t => { g with tc := t })
  else if key = chars "Site" then some { g with link := value }
  else some g

/-- Embedding of `PgnVisitor::end_headers`: skip the game body exactly
when the time control still equals `Tc::default()`. -/
def end_headers_skip (g : Game) : Bool := g.tc = Tc.mk 0 0

example : (Game.acc_comment gameDefault (chars "[%clk 0:00:01]")).map
    (fun g => (g.first_two_clocks, g.last_two_comments)) =
    some ([1], [chars "[%clk 0:00:01]"]) := by decide
example : feed gameDefault
    [chars "[%clk 0:00:01]", chars "[%clk 0:00:02]", chars "[%clk 0:00:03]"] =
    some { gameDefault with
      first_two_clocks := [1, 2],
      last_two_comments := [chars "[%clk 0:00:02]", chars "[%clk 0:00:03]"] } := by
  decide

/-- Embedding of the `TimeSpent` struct (visitor.rs): per-bucket running
totals. `time_spent_exact` is a `Duration` (whole seconds here),
`time_spent_approximate` and `total_rating` are `usize`. -/
structure TimeSpent where
  nb_games : Nat
  total_rating : Nat
  time_spent_exact : Nat
  time_spent_approximate : Nat
  deriving DecidableEq, Repr

/-- `TimeSpent::default()`. -/
def timeSpentDefault : TimeSpent := ⟨0, 0, 0, 0⟩

/-- Embedding of `TimeSpent::add_game`: one more game, rating and both
duration figures accumulated. -/
def TimeSpent.add_game (t : TimeSpent) (game_exact_duration game_approximate_duration rating : Nat) :
    TimeSpent :=
  { nb_games := t.nb_games + 1
    total_rating := t.total_rating + rating
    time_spent_exact := t.time_spent_exact + game_exact_duration
    time_spent_approximate := t.time_spent_approximate + game_approximate_duration }

/-- Embedding of the `TimeSpents` struct (visitor.rs): the five fixed
buckets. -/
structure TimeSpents where
  ultrabullet : TimeSpent
  bullet : TimeSpent
  blitz : TimeSpent
  rapid : TimeSpent
  classical : TimeSpent
  deriving DecidableEq, Repr

/-- `TimeSpents::default()`. -/
def timeSpentsDefault : TimeSpents :=
  ⟨timeSpentDefault, timeSpentDefault, timeSpentDefault, timeSpentDefault, timeSpentDefault⟩

/-- Embedding of `TimeSpents::add_game`: route the game to one bucket by
inclusive thresholds on the average time. -/
def TimeSpents.add_game (ts : TimeSpents) (game_exact_duration avg_time rating : Nat) :
    TimeSpents :=
  if avg_time ≤ 29 then
    { ts with ultrabullet := ts.ultrabullet.add_game game_exact_duration avg_time rating }
  else if avg_time ≤ 179 then
    { ts with bullet := ts.bullet.add_game game_exact_duration avg_time rating }
  else if avg_time ≤ 479 then
    { ts with blitz := ts.blitz.add_game game_exact_duration avg_time rating }
  else if avg_time ≤ 1499 then
    { ts with rapid := ts.rapid.add_game game_exact_duration avg_time rating }
  else
    { ts with classical := ts.classical.add_game game_exact_duration avg_time rating }

/-- Names for the five buckets, for stating which bucket a game lands in. -/
inductive Bucket
  | ultrabullet | bullet | blitz | rapid | classical
  deriving DecidableEq, Repr

/-- Projection of one bucket out of a `TimeSpents`. -/
def getBucket (ts : TimeSpents) : Bucket → TimeSpent
  | .ultrabullet => ts.ultrabullet
  | .bullet => ts.bullet
  | .blitz => ts.blitz
  | .rapid => ts.rapid
  | .classical => ts.classical

/-- The bucket `TimeSpents::add_game` routes to, read off the same
threshold chain. -/
def classify (avg_time : Nat) : Bucket :=
  if avg_time ≤ 29 then .ultrabullet
  else if avg_time ≤ 179 then .bullet
  else if avg_time ≤ 479 then .blitz
  else if avg_time ≤ 1499 then .rapid
  else .classical

/-- The aggregation table `users: FxHashMap<String, TimeSpents>`,
modelled as a map from usernames to optional entries. -/
def Users : Type := List Char → Option TimeSpents

/-- Point update of the aggregation table (`HashMap::insert`). -/
def updateUser (us : Users) (name : List Char) (t : TimeSpents) : Users :=
  fun n => if n = name then some t else us n

/-- Embedding of `PgnVisitor::end_game`: reconstruct the duration (which
can panic, `none`), then — only when `plies ≥ 4` and the checked
subtraction succeeded — fold both participants into the table, each via
remove-or-default / `add_game` / insert. -/
def end_game (us : Users) (g : Game) : Option Users :=
  (g.game_duration).map fun pd =>
    if 4 ≤ g.plies then
      match pd.2 with
      | some d =>
        pd.1.into_iter.foldl
          (fun acc p =>
            updateUser acc p.1 (((acc p.1).getD timeSpentsDefault).add_game d g.tc.average_time p.2))
          us
      | none => us
    else us

/-- The character for one decimal digit (Rust's `Display` emits ASCII
digits). -/
def digitChar (d : Nat) : Char :=
  if d = 0 then '0' else if d = 1 then '1' else if d = 2 then '2'
  else if d = 3 then '3' else if d = 4 then '4' else if d = 5 then '5'
  else if d = 6 then '6' else if d = 7 then '7' else if d = 8 then '8' else '9'

/-- Decimal rendering of a `Nat` (Rust's `Display` for unsigned
integers), fuel-based so that it reduces by evaluation; `natRepr` always
supplies enough fuel. -/
def natReprAux : Nat → Nat → List Char → List Char
  | 0, _, acc => acc
  | fuel + 1, n, acc =>
    if n < 10 then digitChar (n % 10) :: acc
    else natReprAux fuel (n / 10) (digitChar (n % 10) :: acc)

/-- Decimal rendering of a `Nat`. -/
def natRepr (n : Nat) : List Char := natReprAux (n + 1) n []

/-- Embedding of `TimeSpent::to_csv`: when the bucket has games and both
totals are non-zero it writes four comma-led figures — game count,
average rating (`total_rating / nb_games`), approximate total, exact
total; otherwise it writes `",,,"`. -/
def TimeSpent.to_csv (t : TimeSpent) : List Char :=
  if 0 < t.nb_games ∧ ¬t.time_spent_exact = 0 ∧ 0 < t.time_spent_approximate then
    [','] ++ natRepr t.nb_games ++ [','] ++ natRepr (t.total_rating / t.nb_games) ++
    [','] ++ natRepr t.time_spent_approximate ++ [','] ++ natRepr t.time_spent_exact
  else chars ",,,"

/-- Embedding of `TimeSpents::to_csv`: the five buckets in fixed order. -/
def TimeSpents.to_csv (ts : TimeSpents) : List Char :=
  ts.ultrabullet.to_csv ++ ts.bullet.to_csv ++ ts.blitz.to_csv ++
  ts.rapid.to_csv ++ ts.classical.to_csv

/-- One data row of `time-spent.csv` as written by `main`: the username,
a comma, then the five bucket segments. -/
def csv_row (username : List Char) (ts : TimeSpents) : List Char :=
  username ++ [','] ++ ts.to_csv

example : natRepr 1500 = chars "1500" := by decide
example : TimeSpent.to_csv ⟨1, 1500, 4, 10⟩ = chars ",1,1500,10,4" := by decide
example : TimeSpent.to_csv ⟨0, 0, 0, 0⟩ = chars ",,," := by decide

/-- The example game of the claim: `first_samples = [60s, 60s]`,
`recent_samples = [60s, 60s]`, increment 2, ply count 2. -/
def exampleGame : Game :=
  { players := playersDefault, plies := 2, link := [],
    first_two_clocks := [60, 60],
    last_two_comments := [chars "[%clk 0:01:00]", chars "[%clk 0:01:00]"],
    tc := ⟨60, 2⟩ }

/-- The last up-to-two elements of a list (the value the two-slot FIFO
holds after the whole list has been pushed through it). -/
def window2 (l : List α) : List α := l.drop (l.length - 2)

/-- The headers arriving in the order Black then White. -/
def playersEmissionEx : Players :=
  (playersDefault.add_name (chars "Black") (chars "bb")).add_name (chars "White") (chars "aa")

/-! ## Shared helper lemmas -/

/-- Effect of `TimeSpents::add_game` on each bucket, with the updated
bucket written out field by field. -/
lemma getBucket_add_game (t : TimeSpents) (dd avg r : Nat) (b : Bucket) :
    getBucket (t.add_game dd avg r) b =
      if b = classify avg then
        { nb_games := (getBucket t b).nb_games + 1
          total_rating := (getBucket t b).total_rating + r
          time_spent_exact := (getBucket t b).time_spent_exact + dd
          time_spent_approximate := (getBucket t b).time_spent_approximate + avg }
      else getBucket t b := by
  unfold TimeSpents.add_game classify
  split_ifs <;> cases b <;> simp_all [getBucket, TimeSpent.add_game]

/-- A list whose members all fail `f` pointwise at some member makes
`mapOpt f` fail. -/
lemma mapOpt_none_of_mem {f : α → Option β} {l : List α} {a : α}
    (hmem : a ∈ l) (hf : f a = none) : mapOpt f l = none := by
  induction l with
  | nil => cases hmem
  | cons x t ih =>
    rcases List.mem_cons.mp hmem with h | h
    · subst h; unfold mapOpt; rw [hf]; rfl
    · unfold mapOpt
      rw [ih h]
      cases f x <;> rfl

/-! ## C1: exact duration reconstruction formula -/

/-- C1. For every finished game whose two stored recent comments all
parse, the reconstructed duration is
`sum(first_samples) + ply_count * increment - sum(recent_samples)` under
a checked subtraction: `none` (no clamping) exactly when the recent sum
exceeds the credit. -/
theorem game_duration_formula (g : Game) (recents : List Nat)
    (hparse : mapOpt comment_to_duration g.last_two_comments = some recents)
    (hmul : g.plies * g.tc.increment < 2 ^ 64) :
    g.game_duration = some (g.players,
      if recents.sum ≤ g.first_two_clocks.sum + g.plies * g.tc.increment
      then some (g.first_two_clocks.sum + g.plies * g.tc.increment - recents.sum)
      else none) := by
  unfold Game.game_duration
  rw [hparse, Nat.mod_eq_of_lt hmul]
  rfl

/-- C1 witness: the claim's concrete example reconstructs to 4 seconds. -/
theorem game_duration_formula_witness :
    exampleGame.game_duration = some (playersDefault, some 4) := by
  have h := game_duration_formula exampleGame [60, 60] (by decide) (by decide)
  exact h.trans (by decide)

/-! ## C3: unparseable clock comments -/

/-- C3 counterexample: a comment without a parseable clock reading makes
`Game::acc_comment` panic (modelled `none`), aborting the whole run — the
game is not skipped and the stream does not continue. -/
theorem unparseable_comment_counterexample :
    Game.acc_comment gameDefault (chars "a normal text comment") = none := by decide

/-- C3 amended: an unparseable clock comment panics — in `acc_comment`
when `first_two_clocks` is not yet full, and in `game_duration` whenever
it is still among the two stored recent comments. -/
theorem unparseable_comment_panics (g : Game) (c : List Char)
    (hc : comment_to_duration c = none) :
    (g.first_two_clocks.length < 2 → g.acc_comment c = none) ∧
    (c ∈ g.last_two_comments → g.game_duration = none) := by
  constructor
  · intro hlen
    unfold Game.acc_comment
    rw [if_pos hlen, hc]
    rfl
  · intro hmem
    unfold Game.game_duration
    rw [mapOpt_none_of_mem hmem hc]
    rfl

/-- C3 witness: a concrete evaluation-style comment panics at
accumulation time on a fresh game. -/
theorem unparseable_comment_panics_witness :
    Game.acc_comment gameDefault (chars "[%eval 0.5]") = none :=
  (unparseable_comment_panics gameDefault (chars "[%eval 0.5]") (by decide)).1 (by decide)

/-! ## C4: time-control header handling -/

/-- C4 counterexample: an unparseable time-control value other than `"-"`
does not leave `time_control` at the sentinel — the code panics
(modelled `none`). -/
theorem tc_header_counterexample :
    header gameDefault (chars "TimeControl") (chars "abc") = none ∧
    ¬ header gameDefault (chars "TimeControl") (chars "abc") = some gameDefault := by
  decide

/-- C4 amended: the value `"-"` leaves the game untouched (time control
stays at its sentinel); any other value that fails to parse as
`"<base>+<increment>"` panics; a parsing value is stored; and
`end_headers` returns the skip decision exactly when the time control is
still the sentinel `Tc::default()`. -/
theorem tc_header_spec (g : Game) (v : List Char) :
    (v = chars "-" → header g (chars "TimeControl") v = some g) ∧
    (¬ v = chars "-" → tc_to_tuple v = none → header g (chars "TimeControl") v = none) ∧
    (∀ t, ¬ v = chars "-" → tc_to_tuple v = some t →
      header g (chars "TimeControl") v = some { g with tc := t }) ∧
    (end_headers_skip g = true ↔ g.tc = Tc.mk 0 0) := by
  have h1 : ¬ (chars "TimeControl" = chars "White" ∨ chars "TimeControl" = chars "Black") := by
    decide
  have h2 : ¬ (chars "TimeControl" = chars "WhiteElo" ∨ chars "TimeControl" = chars "BlackElo") := by
    decide
  refine ⟨?_, ?_, ?_, ?_⟩
  · intro hv
    unfold header
    rw [if_neg h1, if_neg h2, if_pos rfl, if_pos hv]
  · intro hv htc
    unfold header
    rw [if_neg h1, if_neg h2, if_pos rfl, if_neg hv, htc]
    rfl
  · intro t hv htc
    unfold header
    rw [if_neg h1, if_neg h2, if_pos rfl, if_neg hv, htc]
    rfl
  · unfold end_headers_skip
    simp

/-- C4 witness: the value `"-"` leaves a fresh game unchanged. -/
theorem tc_header_spec_witness :
    header gameDefault (chars "TimeControl") (chars "-") = some gameDefault :=
  (tc_header_spec gameDefault (chars "-")).1 rfl

/-! ## C5: time-control classifier -/

/-- C5. `TimeSpents::add_game` routes every game to exactly the bucket
selected by the inclusive ascending thresholds 29 / 179 / 479 / 1499 and
leaves all other buckets unchanged; the interval of each bucket and the
eight boundary cases are as claimed; and the classification metric is
`base + 40 * increment`. -/
theorem classifier_buckets :
    (∀ (ts : TimeSpents) (d avg r : Nat) (b : Bucket),
      getBucket (ts.add_game d avg r) b =
        if b = classify avg then (getBucket ts b).add_game d avg r else getBucket ts b) ∧
    (∀ avg : Nat,
      (classify avg = .ultrabullet ↔ avg ≤ 29) ∧
      (classify avg = .bullet ↔ 30 ≤ avg ∧ avg ≤ 179) ∧
      (classify avg = .blitz ↔ 180 ≤ avg ∧ avg ≤ 479) ∧
      (classify avg = .rapid ↔ 480 ≤ avg ∧ avg ≤ 1499) ∧
      (classify avg = .classical ↔ 1500 ≤ avg)) ∧
    (classify 29 = .ultrabullet ∧ classify 30 = .bullet ∧ classify 179 = .bullet ∧
      classify 180 = .blitz ∧ classify 479 = .blitz ∧ classify 480 = .rapid ∧
      classify 1499 = .rapid ∧ classify 1500 = .classical) ∧
    (∀ tc : Tc, tc.base + 40 * tc.increment < 2 ^ 64 →
      tc.average_time = tc.base + 40 * tc.increment) := by
  refine ⟨?_, ?_, by decide, fun tc h => Nat.mod_eq_of_lt h⟩
  · intro ts d avg r b
    unfold TimeSpents.add_game classify
    split_ifs <;> cases b <;> simp_all [getBucket, TimeSpent.add_game]
  · intro avg
    unfold classify
    split_ifs <;> refine ⟨?_, ?_, ?_, ?_, ?_⟩ <;> simp <;> omega

/-- C5 witness: the metric at a concrete time control, discharging the
no-overflow hypothesis. -/
theorem classifier_buckets_witness : Tc.average_time ⟨60, 3⟩ = 180 :=
  classifier_buckets.2.2.2 ⟨60, 3⟩ (by decide)

/-! ## C6: aggregation at end of game -/

/-- C6. A finished game (whose reconstruction does not panic) updates the
table iff `ply_count ≥ 4` and the reconstruction returned `some`; a
qualifying game updates, for each of its two (distinct-named)
participants, a lazily created entry, in which exactly the classified
bucket changes: game count up by one, approximate total up by the
approximate duration, exact total up by the reconstructed duration. -/
theorem end_game_spec (us : Users) (g : Game) (pl : Players) (dopt : Option Nat)
    (hdur : g.game_duration = some (pl, dopt)) :
    (g.plies < 4 → end_game us g = some us) ∧
    (dopt = none → end_game us g = some us) ∧
    (∀ (t : TimeSpents) (dd avg r : Nat) (b : Bucket),
      getBucket (t.add_game dd avg r) b =
        if b = classify avg then
          { nb_games := (getBucket t b).nb_games + 1
            total_rating := (getBucket t b).total_rating + r
            time_spent_exact := (getBucket t b).time_spent_exact + dd
            time_spent_approximate := (getBucket t b).time_spent_approximate + avg }
        else getBucket t b) ∧
    (∀ d : Nat, dopt = some d → 4 ≤ g.plies →
      ¬ pl.white.username = pl.black.username →
      ∃ us1, end_game us g = some us1 ∧
        us1 pl.white.username =
          some (((us pl.white.username).getD timeSpentsDefault).add_game
            d g.tc.average_time pl.white.rating) ∧
        us1 pl.black.username =
          some (((us pl.black.username).getD timeSpentsDefault).add_game
            d g.tc.average_time pl.black.rating) ∧
        (∀ n, ¬ n = pl.white.username → ¬ n = pl.black.username → us1 n = us n) ∧
        ¬ us1 pl.white.username = us pl.white.username ∧
        ¬ us1 pl.black.username = us pl.black.username) := by
  refine ⟨?_, ?_, fun t dd avg r b => getBucket_add_game t dd avg r b, ?_⟩
  · intro hlt
    unfold end_game
    rw [hdur]
    simp only [Option.map_some']
    rw [if_neg (by omega : ¬ 4 ≤ g.plies)]
  · intro hnone
    subst hnone
    unfold end_game
    rw [hdur]
    simp only [Option.map_some']
    by_cases h4 : 4 ≤ g.plies
    · rw [if_pos h4]
    · rw [if_neg h4]
  · intro d hsome h4 hne
    subst hsome
    have hne' : ¬ pl.black.username = pl.white.username := fun h => hne h.symm
    set wA := ((us pl.white.username).getD timeSpentsDefault).add_game
      d g.tc.average_time pl.white.rating with hwA
    set us2 := updateUser us pl.white.username wA with hus2
    set bA := ((us2 pl.black.username).getD timeSpentsDefault).add_game
      d g.tc.average_time pl.black.rating with hbA
    set us3 := updateUser us2 pl.black.username bA with hus3
    have hend : end_game us g = some us3 := by
      unfold end_game
      rw [hdur]
      simp only [Option.map_some']
      rw [if_pos h4]
      simp only [Players.into_iter, List.foldl_cons, List.foldl_nil]
    have hw1 : us3 pl.white.username = some wA := by
      simp [hus3, hus2, updateUser, hne, hne']
    have hb1 : us3 pl.black.username =
        some (((us pl.black.username).getD timeSpentsDefault).add_game
          d g.tc.average_time pl.black.rating) := by
      simp [hus3, updateUser, hbA, hus2, hne']
    refine ⟨us3, hend, hw1, hb1, ?_, ?_, ?_⟩
    · intro n hn1 hn2
      simp [hus3, hus2, updateUser, hn1, hn2]
    · intro heq
      rw [hw1] at heq
      rcases hus : us pl.white.username with _ | t
      · rw [hus] at heq
        exact Option.noConfusion heq
      · rw [hus] at heq
        have ht : wA = t := Option.some.inj heq
        rw [hwA, hus] at ht
        have ht2 : t.add_game d g.tc.average_time pl.white.rating = t := by
          simpa using ht
        have h3 : (getBucket (t.add_game d g.tc.average_time pl.white.rating)
            (classify g.tc.average_time)).nb_games =
            (getBucket t (classify g.tc.average_time)).nb_games := by rw [ht2]
        rw [getBucket_add_game] at h3
        simp at h3
    · intro heq
      rw [hb1] at heq
      rcases hus : us pl.black.username with _ | t
      · rw [hus] at heq
        exact Option.noConfusion heq
      · rw [hus] at heq
        have ht2 : t.add_game d g.tc.average_time pl.black.rating = t := by
          have := Option.some.inj heq
          simpa using this
        have h3 : (getBucket (t.add_game d g.tc.average_time pl.black.rating)
            (classify g.tc.average_time)).nb_games =
            (getBucket t (classify g.tc.average_time)).nb_games := by rw [ht2]
        rw [getBucket_add_game] at h3
        simp at h3

/-- C6 witness: a fresh (empty) game has fewer than 4 plies and leaves
an empty table unchanged. -/
theorem end_game_spec_witness :
    end_game (fun _ => none) gameDefault = some (fun _ => none) :=
  (end_game_spec (fun _ => none) gameDefault playersDefault (some 0)
    (by decide)).1 (by decide)

/-! ## C7: CSV export shape -/

/-- No digit character is a comma. -/
lemma digitChar_ne_comma (d : Nat) : ¬ digitChar d = ',' := by
  unfold digitChar
  split_ifs <;> decide

/-- `natReprAux` only prepends digit characters, so it adds no comma. -/
lemma natReprAux_count_comma :
    ∀ (fuel n : Nat) (acc : List Char),
      (natReprAux fuel n acc).count ',' = acc.count ',' := by
  intro fuel
  induction fuel with
  | zero => intro n acc; rfl
  | succ f ih =>
    intro n acc
    unfold natReprAux
    by_cases h : n < 10
    · rw [if_pos h]
      simp [List.count_cons]
      intro hc
      exact digitChar_ne_comma _ hc
    · rw [if_neg h, ih]
      simp [List.count_cons]
      intro hc
      exact digitChar_ne_comma _ hc

/-- The decimal rendering of a number contains no comma. -/
lemma natRepr_count_comma (n : Nat) : (natRepr n).count ',' = 0 := by
  unfold natRepr
  rw [natReprAux_count_comma]
  rfl

/-- A qualifying bucket segment holds four comma-led figures. -/
lemma to_csv_count_of_cond (t : TimeSpent)
    (h : 0 < t.nb_games ∧ ¬ t.time_spent_exact = 0 ∧ 0 < t.time_spent_approximate) :
    t.to_csv.count ',' = 4 := by
  unfold TimeSpent.to_csv
  rw [if_pos h]
  simp [List.count_append, List.count_cons, natRepr_count_comma]

/-- C7 counterexample: a bucket with one recorded game (rating 1500,
exact 4 s, approximate 10 s) emits the four figures
`game count, average rating, approximate, exact` — not the claimed three
`game count, approximate, exact`. -/
theorem csv_three_figures_counterexample :
    TimeSpent.to_csv ⟨1, 1500, 4, 10⟩ = chars ",1,1500,10,4" ∧
    ¬ TimeSpent.to_csv ⟨1, 1500, 4, 10⟩ = chars ",1,10,4" := by
  decide

/-- C7 amended: each player row is the identity, a comma, then the five
bucket segments in the fixed order ultrabullet, bullet, blitz, rapid,
classical; a bucket whose game count is positive and whose exact and
approximate totals are both non-zero emits four figures (game count,
average rating, approximate total, exact total), and a bucket emits the
three empty figures `",,,"` exactly otherwise (so also for some buckets
with at least one recorded game). -/
theorem csv_bucket_fields :
    (∀ ts : TimeSpents, TimeSpents.to_csv ts =
      ts.ultrabullet.to_csv ++ ts.bullet.to_csv ++ ts.blitz.to_csv ++
      ts.rapid.to_csv ++ ts.classical.to_csv) ∧
    (∀ (u : List Char) (tss : TimeSpents),
      csv_row u tss = u ++ [','] ++ TimeSpents.to_csv tss) ∧
    (∀ t : TimeSpent,
      ((0 < t.nb_games ∧ ¬ t.time_spent_exact = 0 ∧ 0 < t.time_spent_approximate) →
        t.to_csv.count ',' = 4 ∧
        t.to_csv = [','] ++ natRepr t.nb_games ++ [','] ++
          natRepr (t.total_rating / t.nb_games) ++ [','] ++
          natRepr t.time_spent_approximate ++ [','] ++ natRepr t.time_spent_exact) ∧
      (t.to_csv = chars ",,," ↔
        ¬ (0 < t.nb_games ∧ ¬ t.time_spent_exact = 0 ∧ 0 < t.time_spent_approximate))) := by
  refine ⟨fun ts => rfl, fun u tss => rfl, fun t => ⟨?_, ?_, ?_⟩⟩
  · intro hcond
    refine ⟨to_csv_count_of_cond t hcond, ?_⟩
    unfold TimeSpent.to_csv
    rw [if_pos hcond]
  · intro heq
    by_contra hcond
    have h4 := to_csv_count_of_cond t hcond
    rw [heq] at h4
    have h3 : (chars ",,,").count ',' = 3 := by decide
    omega
  · intro hcond
    unfold TimeSpent.to_csv
    rw [if_neg hcond]

/-- C7 witness: the four-figure segment of a concrete qualifying bucket. -/
theorem csv_bucket_fields_witness :
    (TimeSpent.to_csv ⟨1, 1500, 4, 10⟩).count ',' = 4 :=
  ((csv_bucket_fields.2.2 ⟨1, 1500, 4, 10⟩).1 (by decide)).1

/-! ## C2: first samples and the two-slot sliding window -/

/-- Binding a `some` is application (on `Option`). -/
lemma opt_some_bind (a : α) (f : α → Option β) : (some a).bind f = f a := rfl

/-- Taking `k` from an append only ever consumes the first `k` of the
left list. -/
lemma take_append_take (l m : List α) (k : Nat) :
    (l.take k ++ m).take k = (l ++ m).take k := by
  rcases le_or_lt l.length k with h | h
  · rw [List.take_of_length_le h]
  · have hk : k ≤ (l.take k).length := by
      rw [List.length_take]
      omega
    rw [List.take_append_of_le_length hk, List.take_take, min_self,
      List.take_append_of_le_length (le_of_lt h)]

/-- A list of length at most two is its own window. -/
lemma window2_of_le (l : List α) (h : l.length ≤ 2) : window2 l = l := by
  unfold window2
  have h0 : l.length - 2 = 0 := by omega
  rw [h0, List.drop_zero]

/-- The window never exceeds two elements. -/
lemma window2_length (l : List α) : (window2 l).length ≤ 2 := by
  unfold window2
  rw [List.length_drop]
  omega

/-- Windowing is insensitive to evicted history: pushing `m` after only
the last two of `l` gives the same window as pushing it after all of
`l`. -/
lemma window2_append (l m : List α) : window2 (window2 l ++ m) = window2 (l ++ m) := by
  rcases le_or_lt l.length 2 with h | h
  · rw [window2_of_le l h]
  · have hwl : window2 l = l.drop (l.length - 2) := rfl
    have hsplit : l ++ m = l.take (l.length - 2) ++ (l.drop (l.length - 2) ++ m) := by
      rw [← List.append_assoc, List.take_append_drop]
    have hdl : (l.drop (l.length - 2)).length = 2 := by
      rw [List.length_drop]
      omega
    have hta : (l.take (l.length - 2)).length = l.length - 2 := by
      rw [List.length_take]
      omega
    rw [hwl]
    rw [hsplit]
    unfold window2
    simp only [List.length_append, hdl, hta]
    have e1 : 2 + m.length - 2 = m.length := by omega
    have e2 : l.length - 2 + (2 + m.length) - 2 = (l.take (l.length - 2)).length + m.length := by
      rw [hta]
      omega
    rw [e1, e2, List.drop_append]

/-- Effect of one `acc_comment` step with a parsable comment, stated via
`take 2` and `window2`. -/
lemma acc_comment_spec (g : Game) (c : List Char) (d : Nat)
    (h1 : g.first_two_clocks.length ≤ 2) (h2 : g.last_two_comments.length ≤ 2)
    (hc : comment_to_duration c = some d) :
    g.acc_comment c = some { g with
      first_two_clocks := (g.first_two_clocks ++ [d]).take 2,
      last_two_comments := window2 (g.last_two_comments ++ [c]) } := by
  obtain ⟨pl, plies, link, fst, lst, tc⟩ := g
  dsimp only at h1 h2 ⊢
  unfold Game.acc_comment
  dsimp only
  have hstage1 : (if fst.length < 2 then
      (comment_to_duration c).map fun d' =>
        Game.mk pl plies link (fst ++ [d']) lst tc
    else some (Game.mk pl plies link fst lst tc)) =
      some (Game.mk pl plies link ((fst ++ [d]).take 2) lst tc) := by
    rcases lt_or_ge fst.length 2 with hf | hf
    · rw [if_pos hf, hc]
      have ht : (fst ++ [d]).take 2 = fst ++ [d] := by
        apply List.take_of_length_le
        simp only [List.length_append, List.length_singleton]
        omega
      rw [Option.map_some', ht]
    · rw [if_neg (not_lt.mpr hf)]
      have hf2 : fst.length = 2 := le_antisymm h1 hf
      have ht : (fst ++ [d]).take 2 = fst := by
        rw [List.take_append_of_le_length (by omega), List.take_of_length_le (by omega)]
      rw [ht]
  rw [hstage1, opt_some_bind]
  dsimp only
  rcases lst with _ | ⟨a, lst1⟩
  · rw [if_pos (by simp)]
    rw [window2_of_le _ (by simp)]
  · rcases lst1 with _ | ⟨b, lst2⟩
    · rw [if_pos (by simp)]
      rw [window2_of_le _ (by simp)]
    · rcases lst2 with _ | ⟨x, lst3⟩
      · rw [if_neg (by simp)]
        have hw : window2 ([a, b] ++ [c]) = [b, c] := by
          unfold window2
          rfl
        rw [hw]
        rfl
      · exfalso
        simp at h2

/-- `mapOpt` success preserves length. -/
lemma mapOpt_length {f : α → Option β} :
    ∀ {l : List α} {l2 : List β}, mapOpt f l = some l2 → l2.length = l.length := by
  intro l
  induction l with
  | nil =>
    intro l2 h
    unfold mapOpt at h
    injection h with h1
    subst h1
    rfl
  | cons a t ih =>
    intro l2 h
    unfold mapOpt at h
    rcases hfa : f a with _ | b
    · rw [hfa] at h
      exact Option.noConfusion h
    · rw [hfa] at h
      rcases hmt : mapOpt f t with _ | bs
      · rw [hmt] at h
        exact Option.noConfusion h
      · rw [hmt] at h
        simp only [opt_some_bind, Option.map_some'] at h
        injection h with h1
        subst h1
        simp [ih hmt]

/-- `mapOpt` success is stable under dropping a prefix, elementwise. -/
lemma mapOpt_drop {f : α → Option β} :
    ∀ (k : Nat) {l : List α} {l2 : List β}, mapOpt f l = some l2 →
      mapOpt f (l.drop k) = some (l2.drop k) := by
  intro k
  induction k with
  | zero =>
    intro l l2 h
    simpa using h
  | succ n ih =>
    intro l l2 h
    cases l with
    | nil =>
      unfold mapOpt at h
      injection h with h1
      subst h1
      rfl
    | cons a t =>
      unfold mapOpt at h
      rcases hfa : f a with _ | b
      · rw [hfa] at h
        exact Option.noConfusion h
      · rw [hfa] at h
        rcases hmt : mapOpt f t with _ | bs
        · rw [hmt] at h
          exact Option.noConfusion h
        · rw [hmt] at h
          simp only [opt_some_bind, Option.map_some'] at h
          injection h with h1
          subst h1
          simp only [List.drop_succ_cons]
          exact ih hmt

/-- Running a whole parsable comment sequence through the accumulator:
`first_two_clocks` ends as the first two parsed samples,
`last_two_comments` as the last two comments. -/
lemma feed_spec :
    ∀ (cs : List (List Char)) (ds : List Nat) (g : Game),
      g.first_two_clocks.length ≤ 2 → g.last_two_comments.length ≤ 2 →
      mapOpt comment_to_duration cs = some ds →
      feed g cs = some { g with
        first_two_clocks := (g.first_two_clocks ++ ds).take 2,
        last_two_comments := window2 (g.last_two_comments ++ cs) } := by
  intro cs
  induction cs with
  | nil =>
    intro ds g h1 h2 hm
    unfold mapOpt at hm
    injection hm with hm1
    subst hm1
    unfold feed
    rw [List.append_nil, List.append_nil, List.take_of_length_le h1, window2_of_le _ h2]
  | cons c cs ih =>
    intro ds g h1 h2 hm
    unfold mapOpt at hm
    rcases hc : comment_to_duration c with _ | d
    · rw [hc] at hm
      exact absurd hm (by simp)
    · rw [hc] at hm
      rcases hcs : mapOpt comment_to_duration cs with _ | ds2
      · rw [hcs] at hm
        exact absurd hm (by simp)
      · rw [hcs] at hm
        simp only [opt_some_bind, Option.map_some'] at hm
        injection hm with hm1
        subst hm1
        unfold feed
        rw [acc_comment_spec g c d h1 h2 hc, opt_some_bind]
        rw [ih ds2 _ (by dsimp only; rw [List.length_take]; omega)
          (by dsimp only; exact window2_length _) hcs]
        dsimp only
        have e1 : ((g.first_two_clocks ++ [d]).take 2 ++ ds2).take 2 =
            (g.first_two_clocks ++ (d :: ds2)).take 2 := by
          rw [take_append_take, List.append_assoc, List.singleton_append]
        have e2 : window2 (window2 (g.last_two_comments ++ [c]) ++ cs) =
            window2 (g.last_two_comments ++ (c :: cs)) := by
          rw [window2_append, List.append_assoc, List.singleton_append]
        rw [e1, e2]

/-- C2. Feeding any sequence of parsable clock comments into a fresh
game: `first_two_clocks` holds the first `min(n,2)` samples in order
(hence fixed once it reaches two), `last_two_comments` is the two-slot
FIFO holding the most recent `min(n,2)` comments, and those comments
parse back to the most recent samples. -/
theorem sliding_window_spec (cs : List (List Char)) (ds : List Nat)
    (hm : mapOpt comment_to_duration cs = some ds) :
    feed gameDefault cs = some { gameDefault with
      first_two_clocks := ds.take 2,
      last_two_comments := window2 cs } ∧
    mapOpt comment_to_duration (window2 cs) = some (window2 ds) := by
  constructor
  · have h := feed_spec cs ds gameDefault (by decide) (by decide) hm
    simpa [gameDefault] using h
  · have hlen := mapOpt_length hm
    unfold window2
    rw [hlen]
    exact mapOpt_drop _ hm

/-- C2 witness: the three clock comments of the claim give
`first_samples = [1s, 2s]` and a window holding the second and third
comments, which parse back to `[2s, 3s]`. -/
theorem sliding_window_spec_witness :
    feed gameDefault
      [chars "[%clk 0:00:01]", chars "[%clk 0:00:02]", chars "[%clk 0:00:03]"] =
      some { gameDefault with
        first_two_clocks := [1, 2],
        last_two_comments := [chars "[%clk 0:00:02]", chars "[%clk 0:00:03]"] } ∧
    mapOpt comment_to_duration [chars "[%clk 0:00:02]", chars "[%clk 0:00:03]"] =
      some [2, 3] := by
  have h := sliding_window_spec
    [chars "[%clk 0:00:01]", chars "[%clk 0:00:02]", chars "[%clk 0:00:03]"]
    [1, 2, 3] (by decide)
  exact ⟨h.1.trans (by decide), h.2⟩

/-! ## C8: participant order -/

/-- C8 counterexample: after the identity headers arrive in the order
Black (`"bb"`) then White (`"aa"`), the participants handed on are
`["aa", "bb"]` — white-slot first — not the emission order
`["bb", "aa"]`. -/
theorem participants_order_counterexample :
    playersEmissionEx.into_iter.map Prod.fst = [chars "aa", chars "bb"] ∧
    ¬ playersEmissionEx.into_iter.map Prod.fst = [chars "bb", chars "aa"] := by
  decide

/-- C8 amended: the ordered pair of participants is always
(white slot, black slot) regardless of the order in which the two
identity headers arrived — the header key alone selects the slot. -/
theorem participants_fixed_slot_order (p : Players) (a b : List Char) :
    ((p.add_name (chars "Black") b).add_name (chars "White") a).into_iter =
      ((p.add_name (chars "White") a).add_name (chars "Black") b).into_iter ∧
    ((p.add_name (chars "Black") b).add_name (chars "White") a).into_iter =
      [(a, p.white.rating), (b, p.black.rating)] := by
  have hB : ¬ (chars "Black" = chars "White") := by decide
  constructor <;> simp [Players.add_name, Players.into_iter, hB]

/-! ## C9: the "0+0" time control -/

/-- C9. The literal value `"0+0"` parses to `base = 0, increment = 0`,
which is exactly `Tc::default()`: storing it leaves a fresh game
indistinguishable from one with no time control, and `end_headers` skips
it. -/
theorem tc_zero_zero_skipped :
    tc_to_tuple (chars "0+0") = some (Tc.mk 0 0) ∧
    header gameDefault (chars "TimeControl") (chars "0+0") = some gameDefault ∧
    end_headers_skip gameDefault = true := by
  decide

/-! ## C10: the clock-comment parser -/

/-- Unfolding equation for `split_once` that does not require the input
to be in constructor form. -/
lemma split_once_eq (pat s : List Char) :
    split_once pat s =
      if pat.isPrefixOf s then some ([], s.drop pat.length)
      else match s with
        | [] => none
        | c :: rest => (split_once pat rest).map fun pr => (c :: pr.1, pr.2) := by
  cases s with
  | nil =>
    unfold split_once
    by_cases h : pat.isPrefixOf ([] : List Char) = true
    · rw [if_pos h, if_pos h, List.drop_nil]
    · rw [if_neg h, if_neg h]
  | cons c rest => rfl

/-- Splitting on a single character finds the first occurrence. -/
lemma split_once_single (c : Char) :
    ∀ (a b : List Char), c ∉ a → split_once [c] (a ++ c :: b) = some (a, b) := by
  intro a
  induction a with
  | nil =>
    intro b _
    rw [List.nil_append, split_once_eq]
    have hpre : [c].isPrefixOf (c :: b) = true :=
      List.isPrefixOf_iff_prefix.mpr ⟨b, rfl⟩
    rw [if_pos hpre]
    rfl
  | cons x a ih =>
    intro b hmem
    have hx : ¬ c = x := fun h => hmem (by rw [h]; exact List.mem_cons_self _ _)
    rw [List.cons_append, split_once_eq]
    have hpre : ¬ [c].isPrefixOf (x :: (a ++ c :: b)) = true := by
      intro h
      rcases List.isPrefixOf_iff_prefix.mp h with ⟨t, ht⟩
      injection ht with h1 h2
      exact hx h1
    rw [if_neg hpre]
    show (split_once [c] (a ++ c :: b)).map (fun pr => (x :: pr.1, pr.2)) = some (x :: a, b)
    rw [ih b (fun h => hmem (List.mem_cons_of_mem _ h))]
    rfl

/-- The marker `"[%clk "` has no non-trivial border, so an occurrence of
the marker cannot straddle the boundary between a text prefix and an
appended marker. -/
lemma marker_no_straddle (t rest : List Char) (hne : ¬ t = [])
    (h : marker.isPrefixOf (t ++ (marker ++ rest)) = true) :
    marker.isPrefixOf t = true := by
  rw [ List.isPrefixOf_iff_prefix] at h ⊢
  have h1 : marker = (t ++ (marker ++ rest)).take marker.length :=
    List.prefix_iff_eq_take.mp h
  rcases le_or_lt marker.length t.length with hlen | hlen
  · rw [List.take_append_of_le_length hlen] at h1
    rw [h1]
    exact List.take_prefix _ _
  · exfalso
    rw [List.take_append_eq_append_take,
      List.take_of_length_le (le_of_lt hlen)] at h1
    have h2 : (marker ++ rest).take (marker.length - t.length) =
        marker.take (marker.length - t.length) :=
      List.take_append_of_le_length (by omega)
    rw [h2] at h1
    have hd : marker.drop t.length = marker.take (marker.length - t.length) := by
      have h3 := congrArg (List.drop t.length) h1
      rwa [List.drop_left] at h3
    have hlen1 : 0 < t.length := List.length_pos.mpr hne
    have hml : marker.length = 6 := by decide
    rw [hml] at hd hlen
    have hcase : t.length = 1 ∨ t.length = 2 ∨ t.length = 3 ∨ t.length = 4 ∨
        t.length = 5 := by omega
    rcases hcase with h5 | h5 | h5 | h5 | h5 <;> rw [h5] at hd <;>
      exact absurd hd (by decide)

/-- `split_once` on a marker-free prefix followed by the marker splits
exactly at the appended marker (the first occurrence). -/
lemma split_once_marker_append :
    ∀ (p rest : List Char), split_once marker p = none →
      split_once marker (p ++ (marker ++ rest)) = some (p, rest) := by
  intro p
  induction p with
  | nil =>
    intro rest _
    rw [List.nil_append, split_once_eq]
    have hpre : marker.isPrefixOf (marker ++ rest) = true :=
      List.isPrefixOf_iff_prefix.mpr (List.prefix_append _ _)
    rw [if_pos hpre, List.drop_left]
  | cons x p ih =>
    intro rest h
    rw [split_once_eq] at h
    by_cases hpre : marker.isPrefixOf (x :: p) = true
    · rw [if_pos hpre] at h
      exact Option.noConfusion h
    · rw [if_neg hpre] at h
      have h2 : split_once marker p = none := by
        have h3 : (split_once marker p).map (fun pr => (x :: pr.1, pr.2)) = none := h
        rcases hsp : split_once marker p with _ | pr
        · rfl
        · rw [hsp] at h3
          exact Option.noConfusion h3
      rw [List.cons_append, split_once_eq]
      have hpre2 : ¬ marker.isPrefixOf (x :: (p ++ (marker ++ rest))) = true := by
        intro hcon
        rw [← List.cons_append] at hcon
        exact hpre (marker_no_straddle (x :: p) rest (by simp) hcon)
      rw [if_neg hpre2]
      show (split_once marker (p ++ (marker ++ rest))).map
        (fun pr => (x :: pr.1, pr.2)) = some (x :: p, rest)
      rw [ih rest h2]
      rfl

/-- On an all-digit string the sign-stripping step is the identity. -/
lemma strip_plus_digits (s : List Char) (hd : ∀ c ∈ s, c.isDigit = true) :
    strip_plus s = s := by
  cases s with
  | nil => rfl
  | cons c t =>
    show (if c = '+' then t else c :: t) = c :: t
    rw [if_neg]
    intro he
    have hc := hd c (List.mem_cons_self _ _)
    rw [he] at hc
    exact absurd hc (by decide)

/-- Rust `u64` parsing succeeds on every non-empty all-digit string whose
value fits, returning the decimal value — no range restriction below
that. -/
lemma parse_u64_digits (s : List Char) (h0 : ¬ s = [])
    (hd : ∀ c ∈ s, c.isDigit = true) (hv : decimalVal s < 2 ^ 64) :
    parse_u64 s = some (decimalVal s) := by
  have hsp : strip_plus s = s := strip_plus_digits s hd
  have hall : s.all (fun c => c.isDigit) = true := by
    rw [List.all_eq_true]
    exact hd
  simp only [parse_u64, hsp]
  rw [if_neg h0, if_pos hall, if_pos hv]

/-- C10. The clock-comment parser validates no ranges: any comment of the
form `<prefix>[%clk H:M:S]<suffix>` — the prefix free of the marker, the
three fields arbitrary non-empty digit strings (minutes or seconds may be
`60` or more, single digits are fine) with values fitting `u64` — parses
to `H*3600 + M*60 + S` seconds, relative to the first occurrence of the
`"[%clk "` marker. -/
theorem comment_clk_no_range_check (p hs ms ss r : List Char)
    (hp : split_once marker p = none)
    (hh : ¬ hs = []) (hdh : ∀ c ∈ hs, c.isDigit = true)
    (hm : ¬ ms = []) (hdm : ∀ c ∈ ms, c.isDigit = true)
    (hs0 : ¬ ss = []) (hds : ∀ c ∈ ss, c.isDigit = true)
    (hvh : decimalVal hs < 2 ^ 64) (hvm : decimalVal ms < 2 ^ 64)
    (hvs : decimalVal ss < 2 ^ 64)
    (htot : decimalVal hs * 3600 + decimalVal ms * 60 + decimalVal ss < 2 ^ 64) :
    comment_to_duration (p ++ marker ++ hs ++ [':'] ++ ms ++ [':'] ++ ss ++ [']'] ++ r) =
      some (decimalVal hs * 3600 + decimalVal ms * 60 + decimalVal ss) := by
  have hch : (':' : Char) ∉ hs := fun hmem => absurd (hdh ':' hmem) (by decide)
  have hcm : (':' : Char) ∉ ms := fun hmem => absurd (hdm ':' hmem) (by decide)
  have hbs : (']' : Char) ∉ ss := fun hmem => absurd (hds ']' hmem) (by decide)
  have e1 : p ++ marker ++ hs ++ [':'] ++ ms ++ [':'] ++ ss ++ [']'] ++ r =
      p ++ (marker ++ (hs ++ (':' :: (ms ++ (':' :: (ss ++ (']' :: r))))))) := by
    simp [List.append_assoc]
  rw [e1]
  unfold comment_to_duration
  rw [split_once_marker_append p _ hp, opt_some_bind]
  dsimp only
  rw [split_once_single ':' hs _ hch, opt_some_bind]
  dsimp only
  rw [split_once_single ':' ms _ hcm, opt_some_bind]
  dsimp only
  rw [split_once_single ']' ss _ hbs, opt_some_bind]
  dsimp only
  rw [parse_u64_digits hs hh hdh hvh, opt_some_bind]
  rw [parse_u64_digits ms hm hdm hvm, opt_some_bind]
  rw [parse_u64_digits ss hs0 hds hvs, Option.map_some']
  rw [Nat.mod_eq_of_lt htot]

/-- C10 witness: single-digit hours and minutes and out-of-range seconds
(`99`), with surrounding text, still parse: `1:5:99` gives 3999 s. -/
theorem comment_clk_no_range_check_witness :
    comment_to_duration (chars "x [%clk 1:5:99]!") = some 3999 := by
  have h := comment_clk_no_range_check (chars "x ") (chars "1") (chars "5")
    (chars "99") (chars "!") (by decide) (by decide) (by decide) (by decide)
    (by decide) (by decide) (by decide) (by decide) (by decide) (by decide)
    (by decide)
  rw [show chars "x [%clk 1:5:99]!" = chars "x " ++ marker ++ chars "1" ++ [':'] ++
    chars "5" ++ [':'] ++ chars "99" ++ [']'] ++ chars "!" from rfl]
  exact h.trans (by decide)

end Lichess
